import Mathlib

/-!
Shallow embedding of the overcontext entity store (TypeScript sources under
`src/`), covering the data model and the operations needed to settle the
claims about the hierarchical merge engine, the filesystem and memory
providers, the namespace resolver and the search engine.

Modelling conventions:
* JavaScript runtime values that entity fields range over are the inductive
  `JSValue`; `Date` objects are represented by their epoch instant, and JS
  strict equality `===` is `jsStrictEq` (two distinct `Date` or array objects
  are never `===`, which the model reflects by comparing them as `false`).
* Timestamps (`new Date()`) are explicit `Nat` clock parameters.
* Fallible operations return `Except StorageErr`; `undefined` results are
  `Option`.
* `String` comparison stands in for `localeCompare` (they agree on the ASCII
  names used by the repository's own examples).
-/

set_option maxRecDepth 4000

namespace Overcontext

/-- JS runtime values as they occur in entity fields: strings, numbers,
`Date` objects (by epoch instant), booleans, `null`, `undefined`, and arrays
of strings (the only array shape the search code inspects). -/
inductive JSValue where
  | vstr (s : String)
  | vnum (n : Int)
  | vdate (t : Int)
  | vbool (b : Bool)
  | vnull
  | vundefined
  | varr (xs : List String)
deriving Repr, DecidableEq

/-- JS strict equality `===` on field values. Distinct `Date` and array
objects are compared by reference in JS, so they are never `===` here (the
fields of two different entities are different objects). -/
def jsStrictEq : JSValue → JSValue → Bool
  | .vstr a, .vstr b => a == b
  | .vnum a, .vnum b => a == b
  | .vbool a, .vbool b => a == b
  | .vnull, .vnull => true
  | .vundefined, .vundefined => true
  | _, _ => false

/-- `aVal === undefined || aVal === null` from `sortEntities`. -/
def isNullish : JSValue → Bool
  | .vnull => true
  | .vundefined => true
  | _ => false

/-- JS `<` for the heterogeneous fallback branch of `sortEntities`
(`aVal < bVal ? -1 : 1`). Numeric comparisons (numbers, dates via
`valueOf`, booleans via `ToNumber`) are modelled; other coercions produce
`NaN` in JS, making `<` false, which the catch-all mirrors. -/
def jsLt : JSValue → JSValue → Bool
  | .vnum a, .vnum b => a < b
  | .vnum a, .vdate b => a < b
  | .vdate a, .vnum b => a < b
  | .vdate a, .vdate b => a < b
  | .vbool a, .vbool b => (if a then (1 : Int) else 0) < (if b then 1 else 0)
  | .vbool a, .vnum b => (if a then (1 : Int) else 0) < b
  | .vnum a, .vbool b => a < (if b then (1 : Int) else 0)
  | _, _ => false

/-- The entity record (`BaseEntitySchema` of `src/schema/base.ts`): required
`id`, `name`, `type`, optional metadata, plus the open extension fields of a
registered schema (`extra`). The `namespace` field is called `nspace`
because `namespace` is a Lean keyword. -/
structure Entity where
  id : String
  name : String
  type : String
  notes : Option String := none
  createdAt : Option Nat := none
  updatedAt : Option Nat := none
  createdBy : Option String := none
  nspace : Option String := none
  source : Option String := none
  extra : List (String × JSValue) := []
deriving Repr, DecidableEq

/-- Dynamic field lookup `(entity as Record<string, unknown>)[field]`: the
declared base fields first, then the open `extra` fields, `undefined` when
absent. -/
def getField (e : Entity) (f : String) : JSValue :=
  if f = "id" then .vstr e.id
  else if f = "name" then .vstr e.name
  else if f = "type" then .vstr e.type
  else if f = "notes" then (e.notes.map .vstr).getD .vundefined
  else if f = "createdAt" then (e.createdAt.map (fun t => .vdate t)).getD .vundefined
  else if f = "updatedAt" then (e.updatedAt.map (fun t => .vdate t)).getD .vundefined
  else if f = "createdBy" then (e.createdBy.map .vstr).getD .vundefined
  else if f = "namespace" then (e.nspace.map .vstr).getD .vundefined
  else if f = "source" then (e.source.map .vstr).getD .vundefined
  else ((e.extra.find? (fun p => p.1 == f)).map (·.2)).getD .vundefined

/-- Error taxonomy of `src/storage/errors.ts`, restricted to the kinds the
modelled operations raise. -/
inductive StorageErr where
  | validation
  | readonly
  | schemaNotRegistered (t : String)
  | storageAccess (msg : String)
deriving Repr, DecidableEq

/-- The schema registry, reduced to what storage operations consult: the
`type → pluralName` (directory name) mapping. -/
abbrev Registry := List (String × String)

/-- `registry.getDirectoryName(type)`. -/
def regDirName (reg : Registry) (t : String) : Option String :=
  (reg.find? (fun p => p.1 == t)).map (·.2)

/-- `[a-zA-Z0-9]` of the id pattern. -/
def isAlnumAscii (c : Char) : Bool :=
  (('a' ≤ c && c ≤ 'z') || ('A' ≤ c && c ≤ 'Z') || ('0' ≤ c && c ≤ '9'))

/-- A character allowed after the first position: `[-a-zA-Z0-9_.]`. -/
def idTailChar (c : Char) : Bool :=
  isAlnumAscii c || c == '-' || c == '_' || c == '.'

/-- The `BaseEntitySchema` id rule: length 1..255 and
`^[a-zA-Z0-9][-a-zA-Z0-9_.]*$`. -/
def idPatternOk (s : String) : Bool :=
  match s.toList with
  | [] => false
  | c :: cs => isAlnumAscii c && cs.all idTailChar && decide (s.length ≤ 255)

/-- `registry.validate(entity)` as the storage layer relies on it: the
entity's type must be registered and the base fields must satisfy
`BaseEntitySchema` (id pattern, non-empty name). -/
def validateEntityFull (reg : Registry) (e : Entity) : Bool :=
  (regDirName reg e.type).isSome && idPatternOk e.id && !(e.name == "")

/-! ## Filter / pagination semantics (`EntityFilter` of `src/storage/interface.ts`)

`if (filter.offset) results = results.slice(filter.offset)` and
`if (filter.limit) results = results.slice(0, filter.limit)` are guarded by
JS truthiness: an absent *or zero* value skips the step. -/

/-- The filter shape passed to `find`/`count`. The `type`/`namespace`
selection is resolved to the scanned entity list by the caller of the model
(see `fsFind`), so only the post-scan filters appear. -/
structure EntityFilter where
  ids : Option (List String) := none
  search : Option String := none
  offset : Option Nat := none
  limit : Option Nat := none
deriving Repr, DecidableEq

/-- `if (filter.offset) results = results.slice(filter.offset)`. -/
def jsDropOpt {α : Type} (o : Option Nat) (xs : List α) : List α :=
  match o with
  | none => xs
  | some n => if n = 0 then xs else xs.drop n

/-- `if (filter.limit) results = results.slice(0, filter.limit)`. -/
def jsTakeOpt {α : Type} (o : Option Nat) (xs : List α) : List α :=
  match o with
  | none => xs
  | some n => if n = 0 then xs else xs.take n

def strLower (s : String) : String := s.map Char.toLower

/-- Does `hay` start with `needle`? -/
def charsLeadWith : List Char → List Char → Bool
  | [], _ => true
  | _ :: _, [] => false
  | a :: as, b :: bs => a == b && charsLeadWith as bs

/-- Does `hay` contain `needle` as a contiguous block? -/
def charsContain (hay needle : List Char) : Bool :=
  match hay with
  | [] => needle.isEmpty
  | _ :: rest => charsLeadWith needle hay || charsContain rest needle

/-- JS `String.prototype.includes`. -/
def strIncludes (hay needle : String) : Bool :=
  charsContain hay.toList needle.toList

/-- `find` of the filesystem provider (`src/storage/filesystem.ts` 252-288)
and equally of the memory provider: `scan` is the concatenation of
`getAll` over the selected types, then the id filter
(`filter.ids?.length` is a truthiness guard, so `[]` disables it), the
free-text filter against `name` (`filter.search` truthiness, so `""`
disables it), then offset, then limit. -/
def fsFind (filter : EntityFilter) (scan : List Entity) : List Entity :=
  let r1 := match filter.ids with
    | some l => if l = [] then scan else scan.filter (fun e => l.contains e.id)
    | none => scan
  let r2 := match filter.search with
    | some s =>
        if s = "" then r1
        else r1.filter (fun e => strIncludes (strLower e.name) (strLower s))
    | none => r1
  jsTakeOpt filter.limit (jsDropOpt filter.offset r2)

/-- `count` of the filesystem provider (`filesystem.ts` 300-303): the length
of the (paginated) `find` result. -/
def fsCount (filter : EntityFilter) (scan : List Entity) : Nat :=
  (fsFind filter scan).length

/-! ## Hierarchical merge (`src/discovery/hierarchical-provider.ts`)

A read provider is represented by the entity list its `getAll`/scan
produces, providers ordered closest (level 0) first, as `readProviders`
is. -/

/-- `byId.set(entity.id, entity)` on a JS `Map` viewed as an
insertion-ordered association list keyed by entity id: an existing key keeps
its position and gets the new value, a new key is appended. -/
def upsert : List Entity → Entity → List Entity
  | [], e => [e]
  | x :: xs, e => if x.id = e.id then e :: xs else x :: upsert xs e

/-- Folding one provider's result list into the id-keyed map. -/
def mergeInto (acc : List Entity) (l : List Entity) : List Entity :=
  l.foldl upsert acc

/-- `getAll` of the hierarchical provider (lines 91-103): iterate the read
providers in reverse order (farthest first) inserting into the id-keyed
map, so closer providers overwrite; then list the map's values. -/
def hierGetAll (provs : List (List Entity)) : List Entity :=
  provs.reverse.foldl mergeInto []

/-- `findEntities` of the hierarchical provider (lines 48-64): each read
provider receives the complete filter (`p.find<T>(filter)` — including
offset and limit), the per-provider results are reverse-merged, and offset
and limit are applied once more to the merged list. -/
def hierFind (filter : EntityFilter) (provs : List (List Entity)) : List Entity :=
  let merged := provs.reverse.foldl (fun acc l => mergeInto acc (fsFind filter l)) []
  jsTakeOpt filter.limit (jsDropOpt filter.offset merged)

/-- `count` of the hierarchical provider (lines 114-117). -/
def hierCount (filter : EntityFilter) (provs : List (List Entity)) : Nat :=
  (hierFind filter provs).length

/-- The closest provider's copy of an id: the first provider (in level
order) containing it. This is what closest-wins promises `getAll` returns
for a colliding id. -/
def firstHit (provs : List (List Entity)) (k : String) : Option Entity :=
  provs.findSome? (fun l => l.find? (fun e => e.id == k))

/-! ## Paths and the filesystem provider's point operations
(`src/storage/filesystem.ts`)

A path is its list of segments (relative to the filesystem root).
`node:path.join` concatenates its arguments with `/` and then normalizes,
resolving `..` and dropping `.` and empty segments; `normalizeSegs` is that
normalization and `splitSegs` the splitting of one (possibly
separator-containing) join argument. -/

abbrev FsPath := List String

def splitSegsAux : List Char → List Char → List String
  | [], acc => [String.mk acc.reverse]
  | c :: rest, acc =>
      if c = '/' then String.mk acc.reverse :: splitSegsAux rest []
      else splitSegsAux rest (c :: acc)

/-- Split a join argument on `/`. -/
def splitSegs (s : String) : List String :=
  splitSegsAux s.toList []

/-- `path.join` normalization over an absolute path: `..` pops a segment,
`.` and empty segments vanish. -/
def normalizeSegs (segs : List String) : FsPath :=
  segs.foldl
    (fun acc s =>
      if s = "" ∨ s = "." then acc
      else if s = ".." then acc.dropLast
      else acc ++ [s])
    []

/-- Does the segment list `p` start with `base`? -/
def segsLeadWith : List String → List String → Bool
  | [], _ => true
  | _ :: _, [] => false
  | a :: as, b :: bs => a == b && segsLeadWith as bs

/-- Is `p` equal to or below `base`? (Both in segments.) -/
def pathUnder (base p : FsPath) : Bool :=
  segsLeadWith base p

/-- A path-safe single segment: non-empty, not `.` or `..`, and free of
separators — exactly the join arguments that `path.join` neither splits nor
resolves away. -/
def goodSeg (s : String) : Bool :=
  !(s == "") && !(s == ".") && !(s == "..") && s.toList.all (fun c => !(c == '/'))

/-- Render a segment path as the string the provider would log or store in
`source`. -/
def joinStr (p : FsPath) : String :=
  String.intercalate "/" p

/-- `getEntityPath` (`filesystem.ts` 43-57):
`path.join(basePath, [namespace,] dirName)` then
`path.join(dir, id + extension)` — no sanitization of any component. -/
def getEntityPathSegs (basePath : FsPath) (ns : Option String) (dirName : String)
    (id ext : String) : FsPath :=
  normalizeSegs (basePath ++ (match ns with
    | some s => splitSegs s
    | none => []) ++ splitSegs dirName ++ splitSegs (id ++ ext))

/-- What a stored file's bytes amount to once `yaml.load` has run:
`badYaml` = the parser threw, `ioError` = the read itself failed with a
non-ENOENT error, otherwise the parsed value. -/
inductive PVal where
  | scalar (v : JSValue)
  | record (fields : List (String × JSValue))
  | array (xs : List JSValue)
deriving Repr, DecidableEq

inductive FileContent where
  | badYaml
  | ioError
  | parsed (v : PVal)
deriving Repr, DecidableEq

/-- The disk: absolute segment path → file content (`none` = no file). -/
abbrev FileSys := FsPath → Option FileContent

/-- `{ ...parsed, source: filePath }`: set/overwrite one key of a record. -/
def setKey (fields : List (String × JSValue)) (k : String) (v : JSValue) :
    List (String × JSValue) :=
  fields.filter (fun p => p.1 ≠ k) ++ [(k, v)]

def lookupKey (fields : List (String × JSValue)) (k : String) : Option JSValue :=
  (fields.find? (fun p => p.1 == k)).map (·.2)

/-- An optional `z.string()` field: absent or `undefined` passes as absent,
a string passes, anything else is a validation failure. -/
def optStrField (fields : List (String × JSValue)) (k : String) :
    Option (Option String) :=
  match lookupKey fields k with
  | none => some none
  | some .vundefined => some none
  | some (.vstr s) => some (some s)
  | some _ => none

/-- An optional `z.date()` field (YAML timestamps parse to `Date`). -/
def optDateField (fields : List (String × JSValue)) (k : String) :
    Option (Option Nat) :=
  match lookupKey fields k with
  | none => some none
  | some .vundefined => some none
  | some (.vdate t) => if 0 ≤ t then some (some t.toNat) else none
  | some _ => none

/-- `registry.validateAs(type, data)` against the base entity schema
(`schema/base.ts` + `schema/registry.ts` 370-389): the `type` key is
injected, `id` must match the filesystem-safe pattern, `name` must be a
non-empty string, the optional metadata fields must have their declared
types, and unknown keys (zod strip mode) are discarded. -/
def validateRecordAs (type : String) (fields : List (String × JSValue)) :
    Option Entity := do
  let f := setKey fields "type" (.vstr type)
  let some (.vstr i) := lookupKey f "id" | none
  let some (.vstr n) := lookupKey f "name" | none
  if idPatternOk i && !(n == "") && !(type == "") then
    let notes ← optStrField f "notes"
    let createdAt ← optDateField f "createdAt"
    let updatedAt ← optDateField f "updatedAt"
    let createdBy ← optStrField f "createdBy"
    let nspace ← optStrField f "namespace"
    let source ← optStrField f "source"
    some { id := i, name := n, type := type, notes := notes,
           createdAt := createdAt, updatedAt := updatedAt,
           createdBy := createdBy, nspace := nspace, source := source,
           extra := [] }
  else none

/-- `readEntity` (`filesystem.ts` 65-104): ENOENT and every corrupt-content
condition yield `undefined` (skip), only a genuine I/O failure throws
`StorageAccessError`. A parsed scalar is either falsy or fails
`typeof parsed === 'object'`; an array passes that check but fails schema
validation; a record has `source` injected and goes through `validateAs`.
There is no `__proto__` inspection anywhere on this path. -/
def readEntityM (type : String) (filePath : String)
    (content : Option FileContent) : Except StorageErr (Option Entity) :=
  match content with
  | none => .ok none
  | some .ioError => .error (.storageAccess ("Failed to read " ++ filePath))
  | some .badYaml => .ok none
  | some (.parsed (.scalar _)) => .ok none
  | some (.parsed (.array _)) => .ok none
  | some (.parsed (.record fields)) =>
      .ok (validateRecordAs type (setKey fields "source" (.vstr filePath)))

/-- `get` (`filesystem.ts` 205-213): compose the path (throwing only for an
unregistered type) and read — the composed path is used as-is, with no check
that it still lies under `basePath`. -/
def fsGet (reg : Registry) (basePath : FsPath) (ext : String) (fs : FileSys)
    (type id : String) (ns : Option String) : Except StorageErr (Option Entity) :=
  match regDirName reg type with
  | none => .error (.schemaNotRegistered type)
  | some dirName =>
      let p := getEntityPathSegs basePath ns dirName id ext
      readEntityM type (joinStr p) (fs p)

/-- `exists` (`filesystem.ts` 290-298): `existsSync` on the composed path;
a thrown `getEntityPath` is caught and turned into `false`. -/
def fsExists (reg : Registry) (basePath : FsPath) (ext : String) (fs : FileSys)
    (type id : String) (ns : Option String) : Bool :=
  match regDirName reg type with
  | none => false
  | some dirName => (fs (getEntityPathSegs basePath ns dirName id ext)).isSome

/-- `delete` (`filesystem.ts` 310-327): readonly guard, then `unlink` the
composed path; ENOENT maps to `false`, anything else propagates. -/
def fsDelete (reg : Registry) (basePath : FsPath) (ext : String) (ro : Bool)
    (fs : FileSys) (type id : String) (ns : Option String) :
    Except StorageErr (Bool × FileSys) :=
  if ro then .error .readonly
  else
    match regDirName reg type with
    | none => .error (.schemaNotRegistered type)
    | some dirName =>
        let p := getEntityPathSegs basePath ns dirName id ext
        match fs p with
        | none => .ok (false, fs)
        | some _ => .ok (true, fun q => if q = p then none else fs q)

/-- The serialized record `writeEntity` dumps: the entity minus the
framework-managed `type` and `source` fields, with `updatedAt := now` and
`createdAt := entity.createdAt || now`. -/
def entityToRecord (e : Entity) (t : Nat) : List (String × JSValue) :=
  [("id", .vstr e.id), ("name", .vstr e.name)]
    ++ (match e.notes with | some s => [("notes", JSValue.vstr s)] | none => [])
    ++ (match e.createdBy with | some s => [("createdBy", JSValue.vstr s)] | none => [])
    ++ (match e.nspace with | some s => [("namespace", JSValue.vstr s)] | none => [])
    ++ e.extra
    ++ [("updatedAt", .vdate t),
        ("createdAt", .vdate (Int.ofNat (e.createdAt.getD t)))]

/-- `writeEntity` (`filesystem.ts` 106-152): readonly guard, schema
validation, then write the record at the composed path and return the
entity with refreshed metadata, `type` and the new `source`. No check that
the path is under `basePath`. -/
def fsSave (reg : Registry) (basePath : FsPath) (ext : String) (ro : Bool)
    (fs : FileSys) (e : Entity) (ns : Option String) (t : Nat) :
    Except StorageErr (Entity × FileSys) :=
  if ro then .error .readonly
  else if !(validateEntityFull reg e) then .error .validation
  else
    match regDirName reg e.type with
    | none => .error (.schemaNotRegistered e.type)
    | some dirName =>
        let p := getEntityPathSegs basePath ns dirName e.id ext
        let saved := { e with updatedAt := some t,
                              createdAt := some (e.createdAt.getD t),
                              source := some (joinStr p) }
        .ok (saved, fun q => if q = p then some (.parsed (.record (entityToRecord e t))) else fs q)

/-- The disk after `save`, the original disk when the call threw (every
throwing branch precedes the write). -/
def fsAfterSave (reg : Registry) (basePath : FsPath) (ext : String) (ro : Bool)
    (fs : FileSys) (e : Entity) (ns : Option String) (t : Nat) : FileSys :=
  match fsSave reg basePath ext ro fs e ns t with
  | .ok (_, fs') => fs'
  | .error _ => fs

/-- The disk after `delete`. -/
def fsAfterDelete (reg : Registry) (basePath : FsPath) (ext : String) (ro : Bool)
    (fs : FileSys) (type id : String) (ns : Option String) : FileSys :=
  match fsDelete reg basePath ext ro fs type id ns with
  | .ok (_, fs') => fs'
  | .error _ => fs

/-- `saveBatch` (`filesystem.ts` 329-338): sequential saves; an error stops
the loop, keeping the writes already made. -/
def fsAfterSaveBatch (reg : Registry) (basePath : FsPath) (ext : String)
    (ro : Bool) (fs : FileSys) (es : List Entity) (ns : Option String)
    (t : Nat) : FileSys :=
  match es with
  | [] => fs
  | e :: rest =>
      match fsSave reg basePath ext ro fs e ns t with
      | .error _ => fs
      | .ok (_, fs') => fsAfterSaveBatch reg basePath ext ro fs' rest ns t

/-- `deleteBatch` (`filesystem.ts` 340-351). -/
def fsAfterDeleteBatch (reg : Registry) (basePath : FsPath) (ext : String)
    (ro : Bool) (fs : FileSys) (refs : List (String × String))
    (ns : Option String) : FileSys :=
  match refs with
  | [] => fs
  | (ty, i) :: rest =>
      match fsDelete reg basePath ext ro fs ty i ns with
      | .error _ => fs
      | .ok (_, fs') => fsAfterDeleteBatch reg basePath ext ro fs' rest ns

/-! The hierarchical provider's write operations
(`hierarchical-provider.ts` 119-123) are exactly the primary provider's:
`save: (entity, namespace) => primaryProvider.save(entity, namespace)` and
so on, where `primaryProvider` has `basePath = contextRoot.primary`. -/

def hierAfterSave (reg : Registry) (primary : FsPath) (ext : String) (ro : Bool)
    (fs : FileSys) (e : Entity) (ns : Option String) (t : Nat) : FileSys :=
  fsAfterSave reg primary ext ro fs e ns t

def hierAfterDelete (reg : Registry) (primary : FsPath) (ext : String)
    (ro : Bool) (fs : FileSys) (type id : String) (ns : Option String) : FileSys :=
  fsAfterDelete reg primary ext ro fs type id ns

def hierAfterSaveBatch (reg : Registry) (primary : FsPath) (ext : String)
    (ro : Bool) (fs : FileSys) (es : List Entity) (ns : Option String)
    (t : Nat) : FileSys :=
  fsAfterSaveBatch reg primary ext ro fs es ns t

def hierAfterDeleteBatch (reg : Registry) (primary : FsPath) (ext : String)
    (ro : Bool) (fs : FileSys) (refs : List (String × String))
    (ns : Option String) : FileSys :=
  fsAfterDeleteBatch reg primary ext ro fs refs ns

/-- A directory scan (`getAll`, `filesystem.ts` 215-250): directory entries
in `readdir` order, skip names not ending in `.yaml`/`.yml`, read each file
with the tolerant `readEntity`, keep the hits. A non-ENOENT I/O failure on
one file aborts the scan (propagates). -/
def strEndsWith (s suffix : String) : Bool :=
  charsLeadWith suffix.toList.reverse s.toList.reverse

def fsScan (type : String) (dirStr : String)
    (files : List (String × FileContent)) : Except StorageErr (List Entity) :=
  match files with
  | [] => .ok []
  | (nm, c) :: rest =>
      if strEndsWith nm ".yaml" || strEndsWith nm ".yml" then
        match readEntityM type (dirStr ++ "/" ++ nm) (some c) with
        | .error err => .error err
        | .ok none => fsScan type dirStr rest
        | .ok (some e) =>
            match fsScan type dirStr rest with
            | .error err => .error err
            | .ok l => .ok (e :: l)
      else fsScan type dirStr rest

/-! ## Memory provider (`createMemoryProvider`, the in-memory backend)

Backed by `namespace → type → id → entity`; `structuredClone` on every
boundary is the identity in this pure model. -/

abbrev MemStore := String → String → String → Option Entity

/-- `ns ?? defaultNamespace ?? '_default'`. -/
def memResolveNs (dflt : Option String) (ns : Option String) : String :=
  ns.getD (dflt.getD "_default")

/-- `get` of the memory provider. -/
def memGet (dflt : Option String) (st : MemStore) (type id : String)
    (ns : Option String) : Option Entity :=
  st (memResolveNs dflt ns) type id

/-- `save` of the memory provider: readonly guard, schema validation, then
store `{ ...entity, namespace, createdAt: existing?.createdAt || now,
updatedAt: now }` and return it. -/
def memSave (reg : Registry) (ro : Bool) (dflt : Option String) (st : MemStore)
    (e : Entity) (ns : Option String) (t : Nat) :
    Except StorageErr (MemStore × Entity) :=
  if ro then .error .readonly
  else if !(validateEntityFull reg e) then .error .validation
  else
    let n := memResolveNs dflt ns
    let existing := st n e.type e.id
    let saved :=
      { e with nspace := some n,
               createdAt := some (match existing with
                 | some ex => ex.createdAt.getD t
                 | none => t),
               updatedAt := some t }
    .ok (fun n2 ty i =>
      if n2 = n ∧ ty = e.type ∧ i = e.id then some saved else st n2 ty i,
      saved)

/-! ## Search engine (`src/api/search.ts`) -/

inductive SortDirection where
  | asc
  | desc
deriving Repr, DecidableEq

structure SortOption where
  field : String
  direction : SortDirection
deriving Repr, DecidableEq

/-- `QueryOptions` (`src/api/query.ts`), with the defaults `search` applies
at destructuring: `searchFields = []`, `caseSensitive = false`,
`offset = 0`, `sort = [{ field: 'name', direction: 'asc' }]`. -/
structure QueryOptions where
  ids : Option (List String) := none
  search : Option String := none
  searchFields : List String := []
  caseSensitive : Bool := false
  limit : Option Nat := none
  offset : Nat := 0
  sort : List SortOption := [⟨"name", .asc⟩]
deriving Repr, DecidableEq

structure QueryResult where
  items : List Entity
  total : Nat
  hasMore : Bool
deriving Repr, DecidableEq

/-- `textMatch` (`search.ts` 37-46): falsy text never matches; lowercase
both sides unless case-sensitive. -/
def textMatch (text query : String) (caseSensitive : Bool) : Bool :=
  if text = "" then false
  else if caseSensitive then strIncludes text query
  else strIncludes (strLower text) (strLower query)

/-- `matchesSearch` (`search.ts` 48-76): always match against `name`, then
against each requested extra field — string values directly, string
elements inside array values. -/
def matchesSearch (e : Entity) (search : String) (searchFields : List String)
    (caseSensitive : Bool) : Bool :=
  textMatch e.name search caseSensitive
    || searchFields.any (fun f =>
        match getField e f with
        | .vstr s => textMatch s search caseSensitive
        | .varr xs => xs.any (fun s => textMatch s search caseSensitive)
        | _ => false)

/-- `localeCompare`, modelled by code-point string comparison (they agree on
ASCII). -/
def strCmpInt (s t : String) : Int :=
  match compare s t with
  | .lt => -1
  | .eq => 0
  | .gt => 1

/-- The body of the comparator of `sortEntities` (`search.ts` 82-103): walk
the tie-break keys; `===`-equal values fall through; nullish values sort
last ascending / first descending; strings via `localeCompare`, dates by
instant, everything else by native `<`. Note the date/fallback branch
*returns* even when the comparison is 0, so equal-but-not-`===` values (for
example two `Date`s at the same instant) do not fall through. -/
def compareByKeys : List SortOption → Entity → Entity → Int
  | [], _, _ => 0
  | ⟨f, d⟩ :: rest, a, b =>
      let aV := getField a f
      let bV := getField b f
      if jsStrictEq aV bV then compareByKeys rest a b
      else if isNullish aV then (if d = .asc then 1 else -1)
      else if isNullish bV then (if d = .asc then -1 else 1)
      else
        let cmp : Int :=
          match aV, bV with
          | .vstr s, .vstr t => strCmpInt s t
          | .vdate ta, .vdate tb => ta - tb
          | _, _ => if jsLt aV bV then -1 else 1
        if d = .asc then cmp else -cmp

/-- Stable insertion with respect to a comparator: the new element goes
after every element not comparing greater. -/
def insertSorted (cmp : Entity → Entity → Int) (e : Entity) :
    List Entity → List Entity
  | [] => [e]
  | x :: xs => if cmp x e ≤ 0 then x :: insertSorted cmp e xs else e :: x :: xs

/-- `sortEntities` (`search.ts` 78-104): a stable sort by the comparator
(`Array.prototype.sort` is stable; for the comparator's consistent cases a
stable insertion sort computes the same order). -/
def sortEntities (sort : List SortOption) (l : List Entity) : List Entity :=
  l.foldl (fun acc e => insertSorted (compareByKeys sort) e acc) []

/-- `MAX_SEARCH_ENTITIES` (`search.ts` 11). -/
def MAX_SEARCH_ENTITIES : Nat := 10000

/-- The id filter of `search` (`search.ts` 150-152), guarded by
`ids?.length` truthiness. -/
def searchIdsFilter (ids : Option (List String)) (l : List Entity) :
    List Entity :=
  match ids with
  | some is => if is = [] then l else l.filter (fun e => is.contains e.id)
  | none => l

/-- The free-text filter of `search` (`search.ts` 155-159), guarded by
`search` truthiness. -/
def searchTextFilter (opts : QueryOptions) (l : List Entity) : List Entity :=
  match opts.search with
  | some s =>
      if s = "" then l
      else l.filter (fun e => matchesSearch e s opts.searchFields opts.caseSensitive)
  | none => l

/-- The filtered and sorted candidate set, before any pagination. -/
def searchFiltered (opts : QueryOptions) (collected : List Entity) :
    List Entity :=
  sortEntities opts.sort (searchTextFilter opts (searchIdsFilter opts.ids collected))

/-- `allEntities.slice(offset, limit ? offset + limit : undefined)`
(`search.ts` 168): a falsy limit (absent or 0) leaves the tail unbounded. -/
def searchPaginate (limit : Option Nat) (offset : Nat) (l : List Entity) :
    List Entity :=
  match limit with
  | some n => if n = 0 then l.drop offset else (l.drop offset).take n
  | none => l.drop offset

/-- `search` (`search.ts` 107-176) given the concatenated `getAll` results
of the selected (type × namespace) pairs as `collected`: the hard cap,
then id filter, text filter, sort, `total` before pagination, the slice,
and `hasMore: limit ? offset + limit < total : false`. -/
def searchModel (opts : QueryOptions) (collected : List Entity) :
    Except StorageErr QueryResult :=
  if collected.length > MAX_SEARCH_ENTITIES then
    .error (.storageAccess "Search returned too many results")
  else
    let sorted := searchFiltered opts collected
    .ok { items := searchPaginate opts.limit opts.offset sorted,
          total := sorted.length,
          hasMore := match opts.limit with
            | some n => if n = 0 then false else decide (opts.offset + n < sorted.length)
            | none => false }

/-! ## Namespace resolver (`src/namespace/resolver.ts`) -/

/-- The configured namespace metadata `resolve` consults. -/
structure NamespaceConfig where
  id : String
  active : Option Bool := none
deriving Repr, DecidableEq

structure NamespaceReference where
  nspace : String
  priority : Nat
  searchable : Bool
  writable : Bool
deriving Repr, DecidableEq

structure NamespaceResolution where
  primary : String
  readable : List String
  references : List NamespaceReference
deriving Repr, DecidableEq

/-- The requested namespace specifier. JS truthiness makes
`resolve('')` fall into the default branch exactly like `resolve()`,
while an empty *array* is truthy and keeps its (empty) list. -/
inductive Requested where
  | undef
  | single (s : String)
  | many (l : List String)
deriving Repr, DecidableEq

/-- `namespaceIds` as computed at the top of `resolve` (`resolver.ts`
57-65). -/
def requestedIds (dflt : String) : Requested → List String
  | .undef => [dflt]
  | .single s => if s = "" then [dflt] else [s]
  | .many l => l

/-- `config?.active !== false`. -/
def nsSearchable (cfgs : List NamespaceConfig) (nsId : String) : Bool :=
  !(((cfgs.find? (fun c => c.id == nsId)).bind (fun c => c.active)) == some false)

/-- The reference-building loop of `resolve` (`resolver.ts` 71-89), with
`total` the requested length and `i` the running index:
`priority = length - i`, `writable` only at index 0. -/
def buildRefs (cfgs : List NamespaceConfig) (total : Nat) :
    Nat → List String → List NamespaceReference
  | _, [] => []
  | i, nsId :: rest =>
      { nspace := nsId, priority := total - i,
        searchable := nsSearchable cfgs nsId,
        writable := i == 0 } :: buildRefs cfgs total (i + 1) rest

/-- `resolve` (`resolver.ts` 56-97). The loop keeps the first *truthy*
(non-empty) id as `primary`; if none is found (no ids, or all empty
strings) the default namespace becomes primary and is appended to
`readable`. -/
def resolveModel (dflt : String) (cfgs : List NamespaceConfig)
    (req : Requested) : NamespaceResolution :=
  let ids := requestedIds dflt req
  let refs := buildRefs cfgs ids.length 0 ids
  match ids.find? (fun s => !(s == "")) with
  | some p => { primary := p, readable := ids, references := refs }
  | none => { primary := dflt, readable := ids ++ [dflt], references := refs }

/-! ## Concrete fixtures used by witnesses and counterexamples -/

/-- A registry as the repository's own tests set it up. -/
def regEx : Registry := [("custom", "customs"), ("person", "people")]

def entA : Entity := { id := "a", name := "Alpha", type := "person" }
def entB : Entity := { id := "b", name := "Beta", type := "person" }
def entC : Entity := { id := "c", name := "Gamma", type := "person" }

/-- Closest directory holds `b`, the farther one holds `a`: two distinct
ids across two levels. -/
def provsOffset : List (List Entity) := [[entB], [entA]]

/-- The stale copy of id `b` in the farther directory. -/
def entStaleB : Entity := { id := "b", name := "Workspace stale", type := "person" }

/-- The overriding copy of id `b` in the closest directory, listed after
`c` in that directory's scan order. -/
def entFreshB : Entity := { id := "b", name := "Project fresh", type := "person" }

def provsLimit : List (List Entity) := [[entC, entFreshB], [entStaleB]]

def sharedA : Entity := { id := "shared", name := "A version", type := "person" }
def sharedB : Entity := { id := "shared", name := "B version", type := "person" }

/-- Directory A (level 0) and directory B (level 1), both holding id
`shared`. -/
def provsShared : List (List Entity) := [[sharedA], [sharedB]]

/-- The provider's base path, `/home/user/ctx` as segments. -/
def caBase : FsPath := ["home", "user", "ctx"]

/-- Where `path.join(basePath, 'customs', '../../etc/passwd.yaml')`
actually resolves. -/
def caOutsidePath : FsPath := ["home", "user", "etc", "passwd.yaml"]

/-- A disk whose only file sits outside the provider's base path and holds
a schema-valid record. -/
def fsOutside : FileSys := fun p =>
  if p = caOutsidePath then
    some (.parsed (.record [("id", .vstr "pw"), ("name", .vstr "secret")]))
  else none

/-- What `get('custom', '../../etc/passwd')` returns on that disk. -/
def caLeakedEntity : Entity :=
  { id := "pw", name := "secret", type := "custom",
    source := some "home/user/etc/passwd.yaml" }

def entE1 : Entity := { id := "e1", name := "E", type := "custom" }

/-- A record that carries a dangerous `__proto__` key next to valid entity
fields. -/
def protoFields : List (String × JSValue) :=
  [("id", .vstr "x1"), ("name", .vstr "Proto"), ("__proto__", .vstr "polluted")]

def protoEntity : Entity :=
  { id := "x1", name := "Proto", type := "custom",
    source := some "ctx/customs/x1.yaml" }

def entAlice : Entity := { id := "alice", name := "Alice", type := "person" }
def entBob3 : Entity := { id := "bob3", name := "Bob", type := "person" }
def entCarol : Entity := { id := "carol", name := "Carol", type := "person" }

/-- The claim's pagination example: a 3-item set (here listed out of sort
order), queried with `limit: 2, offset: 1`. -/
def q3 : QueryOptions := { limit := some 2, offset := 1 }

def ents3 : List Entity := [entCarol, entAlice, entBob3]

def entSortBob : Entity :=
  { id := "bob", name := "Bob", type := "person",
    extra := [("company", .vstr "Acme")] }
def entSortJohn : Entity :=
  { id := "john", name := "John", type := "person",
    extra := [("company", .vstr "Acme")] }
def entSortJane : Entity :=
  { id := "jane", name := "Jane", type := "person",
    extra := [("company", .vstr "TechCorp")] }

def sortKeysEx : List SortOption := [⟨"company", .asc⟩, ⟨"name", .asc⟩]

def entM1 : Entity := { id := "m1", name := "Mem", type := "custom" }
def entM1v2 : Entity := { id := "m1", name := "Mem updated", type := "custom" }

/-! ## Lemmas about the id-keyed merge -/

theorem find?_upsert (l : List Entity) (e : Entity) (k : String) :
    (upsert l e).find? (fun x => x.id == k) =
      if e.id = k then some e else l.find? (fun x => x.id == k) := by
  have cpos : ∀ {a : Entity} {t : List Entity}, (a.id == k) = true →
      (a :: t).find? (fun x => x.id == k) = some a :=
    fun h2 => List.find?_cons_of_pos _ h2
  have cneg : ∀ {a : Entity} {t : List Entity}, ¬ ((a.id == k) = true) →
      (a :: t).find? (fun x => x.id == k) = t.find? (fun x => x.id == k) :=
    fun h2 => List.find?_cons_of_neg _ h2
  induction l with
  | nil =>
      simp only [upsert]
      by_cases h : e.id = k
      · rw [if_pos h]
        exact cpos (by simpa using h)
      · rw [if_neg h, cneg (by simpa using h)]
  | cons x xs ih =>
      simp only [upsert]
      by_cases hx : x.id = e.id
      · rw [if_pos hx]
        by_cases hek : e.id = k
        · rw [if_pos hek]
          exact cpos (by simpa using hek)
        · have hxk : ¬ x.id = k := fun hc => hek (hx ▸ hc)
          rw [if_neg hek, cneg (by simpa using hek), cneg (by simpa using hxk)]
      · rw [if_neg hx]
        by_cases hxk : x.id = k
        · have hek : ¬ e.id = k := fun hc => hx (hxk.trans hc.symm)
          rw [if_neg hek, cpos (by simpa using hxk), cpos (by simpa using hxk)]
        · rw [cneg (by simpa using hxk), ih]
          by_cases hek : e.id = k
          · rw [if_pos hek, if_pos hek]
          · rw [if_neg hek, if_neg hek, cneg (by simpa using hxk)]

theorem mem_ids_upsert (l : List Entity) (e : Entity) (k : String) :
    k ∈ (upsert l e).map Entity.id ↔ k = e.id ∨ k ∈ l.map Entity.id := by
  induction l with
  | nil => simp [upsert]
  | cons x xs ih =>
      simp only [upsert]
      by_cases hx : x.id = e.id
      · rw [if_pos hx]
        simp only [List.map_cons, List.mem_cons, hx]
        tauto
      · rw [if_neg hx]
        simp only [List.map_cons, List.mem_cons, ih]
        tauto

theorem nodup_ids_upsert (l : List Entity) (e : Entity)
    (h : (l.map Entity.id).Nodup) : ((upsert l e).map Entity.id).Nodup := by
  induction l with
  | nil => simp [upsert]
  | cons x xs ih =>
      simp only [upsert]
      simp only [List.map_cons, List.nodup_cons] at h
      by_cases hx : x.id = e.id
      · rw [if_pos hx]
        simp only [List.map_cons, List.nodup_cons]
        exact ⟨hx ▸ h.1, h.2⟩
      · rw [if_neg hx]
        simp only [List.map_cons, List.nodup_cons]
        refine ⟨?_, ih h.2⟩
        rw [mem_ids_upsert]
        rintro (hc | hc)
        · exact hx hc
        · exact h.1 hc

theorem find?_mergeInto (l : List Entity) (acc : List Entity) (k : String)
    (h : (l.map Entity.id).Nodup) :
    (mergeInto acc l).find? (fun x => x.id == k) =
      match l.find? (fun x => x.id == k) with
      | some e => some e
      | none => acc.find? (fun x => x.id == k) := by
  induction l generalizing acc with
  | nil => simp [mergeInto]
  | cons y ys ih =>
      simp only [List.map_cons, List.nodup_cons] at h
      have cpos : ∀ {a : Entity} {t : List Entity}, (a.id == k) = true →
          (a :: t).find? (fun x => x.id == k) = some a :=
        fun h2 => List.find?_cons_of_pos _ h2
      have cneg : ∀ {a : Entity} {t : List Entity}, ¬ ((a.id == k) = true) →
          (a :: t).find? (fun x => x.id == k) = t.find? (fun x => x.id == k) :=
        fun h2 => List.find?_cons_of_neg _ h2
      have step : mergeInto acc (y :: ys) = mergeInto (upsert acc y) ys := rfl
      rw [step, ih _ h.2]
      by_cases hyk : y.id = k
      · have hnone : ys.find? (fun x => x.id == k) = none := by
          rw [List.find?_eq_none]
          intro a ha hc
          have hak : a.id = k := by simpa using hc
          exact h.1 (by
            rw [← hak.trans hyk.symm]
            exact List.mem_map_of_mem Entity.id ha)
        rw [hnone, cpos (by simpa using hyk), find?_upsert, if_pos hyk]
      · rw [cneg (by simpa using hyk)]
        cases hys : ys.find? (fun x => x.id == k) with
        | some e => rfl
        | none => rw [find?_upsert, if_neg hyk]

theorem nodup_ids_mergeInto (l : List Entity) (acc : List Entity)
    (h : (acc.map Entity.id).Nodup) :
    ((mergeInto acc l).map Entity.id).Nodup := by
  induction l generalizing acc with
  | nil => exact h
  | cons y ys ih =>
      have step : mergeInto acc (y :: ys) = mergeInto (upsert acc y) ys := rfl
      rw [step]
      exact ih _ (nodup_ids_upsert _ _ h)

theorem hierGetAll_cons (q : List Entity) (qs : List (List Entity)) :
    hierGetAll (q :: qs) = mergeInto (hierGetAll qs) q := by
  simp [hierGetAll, List.reverse_cons, List.foldl_append]

theorem nodup_ids_hierGetAll (provs : List (List Entity)) :
    ((hierGetAll provs).map Entity.id).Nodup := by
  induction provs with
  | nil => simp [hierGetAll]
  | cons q qs ih =>
      rw [hierGetAll_cons]
      exact nodup_ids_mergeInto _ _ ih

theorem find?_hierGetAll (provs : List (List Entity)) (k : String)
    (h : ∀ l ∈ provs, (l.map Entity.id).Nodup) :
    (hierGetAll provs).find? (fun e => e.id == k) = firstHit provs k := by
  induction provs with
  | nil => simp [hierGetAll, firstHit]
  | cons q qs ih =>
      rw [hierGetAll_cons,
        find?_mergeInto q (hierGetAll qs) k (h q (by simp)),
        ih (fun l hl => h l (by simp [hl]))]
      cases hq : q.find? (fun x => x.id == k) with
      | some e => simp [firstHit, List.findSome?_cons, hq]
      | none => simp [firstHit, List.findSome?_cons, hq]

/-! ## C1, C2, C10 -/

/-- C1 (status: code_bug). The spec says the hierarchical `find` merges the
deduplicated results of all read providers and only then applies
offset/limit, pagination never touching any individual provider's results
before the merge. The code forwards the complete filter — offset and limit
included — to every read provider's `find` (`hierarchical-provider.ts`
line 52) and each filesystem `find` applies them (`filesystem.ts` 279-287),
before the merge and the second application. Evidence at concrete inputs:
with two distinct ids at two levels, `find {offset: 1}` drops each
provider's only row and returns nothing although merge-then-paginate has a
row to return; and with an id-`b` override in the closest directory listed
after its limit boundary, `find {limit: 1}` returns the *farther, stale*
copy of `b`, although the merged map holds the closest copy — contradicting
the documented closest-wins override. -/
theorem c1_find_paginates_per_provider_before_merge :
    hierFind { offset := some 1 } provsOffset = [] ∧
    (hierGetAll provsOffset).length = 2 ∧
    hierFind { limit := some 1 } provsLimit = [entStaleB] ∧
    (hierGetAll provsLimit).find? (fun e => e.id == "b") = some entFreshB :=
  ⟨rfl, rfl, rfl, rfl⟩

/-- C2 (status: confirmed). Hierarchical `getAll` merges farthest-first
into an id-keyed map, so the returned list holds exactly one entity per id
(its id column is duplicate-free), the entry for any id `k` is precisely
the closest (first-listed, level-0) provider's copy of `k`, and an id
appears in the result exactly when some provider has it. -/
theorem c2_getAll_closest_wins (provs : List (List Entity))
    (h : ∀ l ∈ provs, (l.map Entity.id).Nodup) :
    ((hierGetAll provs).map Entity.id).Nodup ∧
    (∀ k, (hierGetAll provs).find? (fun e => e.id == k) = firstHit provs k) ∧
    (∀ k, (∃ e ∈ hierGetAll provs, e.id = k) ↔ ∃ l ∈ provs, ∃ e ∈ l, e.id = k) := by
  refine ⟨nodup_ids_hierGetAll provs, fun k => find?_hierGetAll provs k h, fun k => ?_⟩
  have hfh := find?_hierGetAll provs k h
  constructor
  · rintro ⟨e, he, rfl⟩
    have : (hierGetAll provs).find? (fun x => x.id == e.id) ≠ none := by
      rw [Ne, List.find?_eq_none]
      push_neg
      exact ⟨e, he, by simp⟩
    rw [find?_hierGetAll provs e.id h] at this
    rcases hfs : firstHit provs e.id with _ | e2
    · exact absurd hfs this
    · unfold firstHit at hfs
      rcases List.exists_of_findSome?_eq_some hfs with ⟨l, hl, hfind⟩
      exact ⟨l, hl, e2, List.mem_of_find?_eq_some hfind,
        by simpa using List.find?_some hfind⟩
  · rintro ⟨l, hl, e, he, rfl⟩
    have : firstHit provs e.id ≠ none := by
      unfold firstHit
      rw [Ne, List.findSome?_eq_none_iff]
      push_neg
      refine ⟨l, hl, ?_⟩
      rw [Ne, List.find?_eq_none]
      push_neg
      exact ⟨e, he, by simp⟩
    rw [← hfh] at this
    rcases hfs : (hierGetAll provs).find? (fun x => x.id == e.id) with _ | e2
    · exact absurd hfs this
    · exact ⟨e2, List.mem_of_find?_eq_some hfs, by simpa using List.find?_some hfs⟩

/-- Witness for C2: the spec's own example — directory A (level 0) holds
`shared` with name "A version", directory B (level 1) holds `shared` with
name "B version"; `getAll` returns exactly one entity with id `shared`,
carrying the level-0 fields. -/
theorem c2_getAll_closest_wins_witness :
    (∀ l ∈ provsShared, (l.map Entity.id).Nodup) ∧
    (hierGetAll provsShared).find? (fun e => e.id == "shared") = some sharedA ∧
    hierGetAll provsShared = [sharedA] ∧ sharedA.name = "A version" := by
  have h : ∀ l ∈ provsShared, (l.map Entity.id).Nodup := by decide
  refine ⟨h, ?_, rfl, rfl⟩
  rw [(c2_getAll_closest_wins provsShared h).2.1 "shared"]
  rfl

/-- C10 (status: confirmed). `count` of both the filesystem and the
hierarchical provider is the length of the *paginated* `find` result, so
under a (nonzero) limit it never exceeds the limit — unlike the search
engine's `total`, which counts before pagination. -/
theorem c10_count_counts_paginated_find (filter : EntityFilter)
    (scan : List Entity) (provs : List (List Entity)) :
    fsCount filter scan = (fsFind filter scan).length ∧
    hierCount filter provs = (hierFind filter provs).length ∧
    (∀ n, filter.limit = some n → 0 < n →
      fsCount filter scan ≤ n ∧ hierCount filter provs ≤ n) := by
  refine ⟨rfl, rfl, fun n hl hn => ⟨?_, ?_⟩⟩
  · show (fsFind filter scan).length ≤ n
    unfold fsFind
    rw [hl]
    simp only [jsTakeOpt, if_neg (Nat.pos_iff_ne_zero.mp hn)]
    exact List.length_take_le n _
  · show (hierFind filter provs).length ≤ n
    unfold hierFind
    rw [hl]
    simp only [jsTakeOpt, if_neg (Nat.pos_iff_ne_zero.mp hn)]
    exact List.length_take_le n _

/-- Witness for C10: with three matching entities and `limit: 2`, `count`
returns 2 (the paginated length), while the search engine's `total` over
the same three entities is 3. -/
theorem c10_count_counts_paginated_find_witness :
    (0 : Nat) < 2 ∧
    fsCount { limit := some 2 } ents3 ≤ 2 ∧
    fsCount { limit := some 2 } ents3 = 2 ∧
    (searchModel { limit := some 2 } ents3).map QueryResult.total = .ok 3 := by
  refine ⟨by decide, ?_, by decide, by rfl⟩
  exact ((c10_count_counts_paginated_find { limit := some 2 } ents3 []).2.2
    2 rfl (by decide)).1

/-! ## Lemmas about path composition -/

theorem splitSegsAux_no_slash (cs : List Char) (acc : List Char)
    (h : ∀ c ∈ cs, ¬ c = '/') :
    splitSegsAux cs acc = [String.mk (acc.reverse ++ cs)] := by
  induction cs generalizing acc with
  | nil => simp [splitSegsAux]
  | cons c rest ih =>
      have hc : ¬ c = '/' := h c (by simp)
      simp only [splitSegsAux, if_neg hc]
      rw [ih _ (fun d hd => h d (by simp [hd]))]
      simp

theorem splitSegs_no_slash (s : String)
    (h : s.toList.all (fun c => !(c == '/')) = true) : splitSegs s = [s] := by
  have h2 : ∀ c ∈ s.toList, ¬ c = '/' := by
    intro c hc
    simpa using List.all_eq_true.mp h c hc
  unfold splitSegs
  rw [splitSegsAux_no_slash _ _ h2]
  simp only [List.reverse_nil, List.nil_append]
  rfl

theorem foldl_normStep_plain (rest : List String) (acc : List String)
    (h : ∀ s ∈ rest, goodSeg s = true) :
    rest.foldl
      (fun acc2 s =>
        if s = "" ∨ s = "." then acc2
        else if s = ".." then acc2.dropLast
        else acc2 ++ [s]) acc = acc ++ rest := by
  induction rest generalizing acc with
  | nil => simp
  | cons s rest ih =>
      have hs := h s (by simp)
      simp only [goodSeg, Bool.and_eq_true, Bool.not_eq_true', beq_eq_false_iff_ne,
        ne_eq] at hs
      have h1 : ¬ (s = "" ∨ s = ".") := by
        rintro (hc | hc)
        · exact hs.1.1.1 hc
        · exact hs.1.1.2 hc
      simp only [List.foldl_cons, if_neg h1, if_neg hs.1.2]
      rw [ih _ (fun d hd => h d (by simp [hd]))]
      simp

theorem normalizeSegs_append_plain (base rest : List String)
    (h : ∀ s ∈ rest, goodSeg s = true) :
    normalizeSegs (base ++ rest) = normalizeSegs base ++ rest := by
  unfold normalizeSegs
  rw [List.foldl_append, foldl_normStep_plain rest _ h]

theorem goodSeg_of_toList (s : String) (h1 : s.toList ≠ [])
    (h2 : s.toList ≠ ['.']) (h3 : s.toList ≠ ['.', '.'])
    (h4 : ∀ c ∈ s.toList, ¬ c = '/') : goodSeg s = true := by
  unfold goodSeg
  have e1 : (s == "") = false := by
    rw [beq_eq_false_iff_ne]
    intro hc
    exact h1 (by rw [hc]; rfl)
  have e2 : (s == ".") = false := by
    rw [beq_eq_false_iff_ne]
    intro hc
    exact h2 (by rw [hc]; rfl)
  have e3 : (s == "..") = false := by
    rw [beq_eq_false_iff_ne]
    intro hc
    exact h3 (by rw [hc]; rfl)
  have e4 : s.toList.all (fun c => !(c == '/')) = true := by
    rw [List.all_eq_true]
    intro c hc
    simpa using h4 c hc
  rw [e1, e2, e3, e4]
  rfl

theorem isAlnumAscii_ne_slash (c : Char) (h : isAlnumAscii c = true) :
    ¬ c = '/' := by
  intro hc
  rw [hc] at h
  exact absurd h (by decide)

theorem idTailChar_ne_slash (c : Char) (h : idTailChar c = true) : ¬ c = '/' := by
  intro hc
  rw [hc] at h
  exact absurd h (by decide)

theorem goodSeg_id_ext (id ext : String) (hid : idPatternOk id = true)
    (hExt : ext.toList.all (fun c => !(c == '/')) = true) :
    goodSeg (id ++ ext) = true := by
  have htl : (id ++ ext).toList = id.toList ++ ext.toList := by
    simp [String.toList]
  unfold idPatternOk at hid
  cases hcl : id.toList with
  | nil => rw [hcl] at hid; exact absurd hid (by simp)
  | cons c cs =>
      rw [hcl] at hid
      simp only [Bool.and_eq_true] at hid
      apply goodSeg_of_toList
      · rw [htl, hcl]
        simp
      · rw [htl, hcl]
        intro hc
        have : c = '.' := (List.cons.injEq _ _ _ _ ▸ hc).1
        rw [this] at hid
        exact absurd hid.1.1 (by decide)
      · rw [htl, hcl]
        intro hc
        have : c = '.' := (List.cons.injEq _ _ _ _ ▸ hc).1
        rw [this] at hid
        exact absurd hid.1.1 (by decide)
      · rw [htl, hcl]
        intro d hd
        rcases List.mem_cons.mp hd with hd | hd
        · exact hd ▸ isAlnumAscii_ne_slash c hid.1.1
        · rcases List.mem_append.mp hd with hd | hd
          · exact idTailChar_ne_slash d (List.all_eq_true.mp hid.1.2 d hd)
          · simpa using List.all_eq_true.mp hExt d hd

theorem getEntityPathSegs_plain (basePath : FsPath) (ns : Option String)
    (dirName id ext : String)
    (hBase : normalizeSegs basePath = basePath)
    (hNs : ∀ s, ns = some s → goodSeg s = true)
    (hDir : goodSeg dirName = true)
    (hFile : goodSeg (id ++ ext) = true) :
    getEntityPathSegs basePath ns dirName id ext
      = basePath ++ (ns.elim [] fun s => [s]) ++ [dirName, id ++ ext] := by
  have hDirSplit : splitSegs dirName = [dirName] := by
    apply splitSegs_no_slash
    simp only [goodSeg, Bool.and_eq_true] at hDir
    exact hDir.2
  have hFileSplit : splitSegs (id ++ ext) = [id ++ ext] := by
    apply splitSegs_no_slash
    simp only [goodSeg, Bool.and_eq_true] at hFile
    exact hFile.2
  cases ns with
  | none =>
      show normalizeSegs (basePath ++ [] ++ splitSegs dirName ++ splitSegs (id ++ ext)) = _
      rw [hDirSplit, hFileSplit]
      have hshape : basePath ++ [] ++ [dirName] ++ [id ++ ext]
          = basePath ++ [dirName, id ++ ext] := by simp
      rw [hshape, normalizeSegs_append_plain basePath [dirName, id ++ ext] ?_, hBase]
      · simp [Option.elim]
      · intro s hs
        rcases List.mem_cons.mp hs with hs | hs
        · exact hs ▸ hDir
        · have : s = id ++ ext := by simpa using hs
          exact this ▸ hFile
  | some nsv =>
      have hNsGood := hNs nsv rfl
      have hNsSplit : splitSegs nsv = [nsv] := by
        apply splitSegs_no_slash
        simp only [goodSeg, Bool.and_eq_true] at hNsGood
        exact hNsGood.2
      show normalizeSegs (basePath ++ splitSegs nsv ++ splitSegs dirName
        ++ splitSegs (id ++ ext)) = _
      rw [hNsSplit, hDirSplit, hFileSplit]
      have hshape : basePath ++ [nsv] ++ [dirName] ++ [id ++ ext]
          = basePath ++ [nsv, dirName, id ++ ext] := by simp
      rw [hshape, normalizeSegs_append_plain basePath [nsv, dirName, id ++ ext] ?_, hBase]
      · simp [Option.elim]
      · intro s hs
        rcases List.mem_cons.mp hs with hs | hs
        · exact hs ▸ hNsGood
        · rcases List.mem_cons.mp hs with hs | hs
          · exact hs ▸ hDir
          · have : s = id ++ ext := by simpa using hs
            exact this ▸ hFile

theorem segsLeadWith_iff (a b : List String) : segsLeadWith a b = true ↔ a <+: b := by
  induction a generalizing b with
  | nil => simp [segsLeadWith]
  | cons x as ih =>
      cases b with
      | nil => simp [segsLeadWith]
      | cons y bs =>
          simp [segsLeadWith, List.cons_prefix_cons, ih, Bool.and_eq_true,
            beq_iff_eq, And.comm]

theorem pathUnder_append (base rest : FsPath) : pathUnder base (base ++ rest) = true := by
  rw [pathUnder, segsLeadWith_iff]
  exact List.prefix_append base rest

theorem pathUnder_extension_false (primary other : FsPath)
    (hO1 : pathUnder primary other = false) (hO2 : pathUnder other primary = false) :
    ∀ rel, pathUnder primary (other ++ rel) = false := by
  intro rel
  cases hpu : pathUnder primary (other ++ rel) with
  | false => rfl
  | true =>
      exfalso
      have hpre : primary <+: other ++ rel := (segsLeadWith_iff _ _).mp hpu
      have hopre : other <+: other ++ rel := List.prefix_append other rel
      rcases Nat.le_total primary.length other.length with hl | hl
      · have hp : primary <+: other := List.prefix_of_prefix_length_le hpre hopre hl
        have ht : pathUnder primary other = true := (segsLeadWith_iff _ _).mpr hp
        rw [ht] at hO1
        exact absurd hO1 (by decide)
      · have hp : other <+: primary := List.prefix_of_prefix_length_le hopre hpre hl
        have ht : pathUnder other primary = true := (segsLeadWith_iff _ _).mpr hp
        rw [ht] at hO2
        exact absurd hO2 (by decide)

/-! ## C3: path handling of caller-supplied ids and namespaces -/

/-- C3 counterexample. The spec claims every path component derived from
caller input is sanitized and the final path is verified to resolve under
`basePath`, any violation failing with an access-class error. The code has
no such checks: `get('custom', '../../etc/passwd')` composes
`<base>/customs/../../etc/passwd.yaml`, which normalizes to a path
*outside* `basePath`, and the provider happily reads and returns the record
found there — no error of any kind. -/
theorem c3_traversal_not_rejected :
    fsGet regEx caBase ".yaml" fsOutside "custom" "../../etc/passwd" none
      = .ok (some caLeakedEntity) ∧
    getEntityPathSegs caBase none "customs" "../../etc/passwd" ".yaml"
      = caOutsidePath ∧
    pathUnder caBase caOutsidePath = false :=
  ⟨rfl, rfl, rfl⟩

/-- C3 amended (status: corrected). The only safety mechanism on this path
is the schema's id pattern, and it guards *only* `save`: an entity whose id
fails the filesystem-safe pattern (which excludes separators, a leading
dot — hence `..` — null bytes and control characters) is rejected with a
validation error before anything touches the disk. Nothing else is checked:
the same save called with namespace `..` succeeds and writes a file outside
`basePath`, and read-side operations never validate at all (see the
counterexample). -/
theorem c3_only_save_validates_and_only_the_id
    (reg : Registry) (basePath : FsPath) (ext : String) (fs : FileSys)
    (e : Entity) (ns : Option String) (t : Nat)
    (hid : idPatternOk e.id = false) :
    fsSave reg basePath ext false fs e ns t = .error .validation ∧
    fsAfterSave reg basePath ext false fs e ns t = fs ∧
    (fsSave regEx caBase ".yaml" false (fun _ => none) entE1 (some "..") 0).isOk
      = true ∧
    ((fsAfterSave regEx caBase ".yaml" false (fun _ => none) entE1 (some "..") 0)
        ["home", "user", "customs", "e1.yaml"]).isSome = true ∧
    pathUnder caBase ["home", "user", "customs", "e1.yaml"] = false := by
  have hv : validateEntityFull reg e = false := by
    simp [validateEntityFull, hid]
  refine ⟨?_, ?_, rfl, rfl, rfl⟩
  · simp [fsSave, hv]
  · simp [fsAfterSave, fsSave, hv]

/-- Witness for the amended C3 at the spec's own failing input: the id
`../../etc/passwd` fails the pattern, so `save` of an entity carrying it is
rejected with a validation error. -/
theorem c3_only_save_validates_and_only_the_id_witness :
    idPatternOk "../../etc/passwd" = false ∧
    fsSave regEx caBase ".yaml" false fsOutside
      { id := "../../etc/passwd", name := "evil", type := "custom" } none 0
      = .error .validation := by
  refine ⟨by decide, ?_⟩
  exact (c3_only_save_validates_and_only_the_id regEx caBase ".yaml" fsOutside
    { id := "../../etc/passwd", name := "evil", type := "custom" } none 0
    (by decide)).1

/-! ## C4: hierarchical writes and the primary directory -/

/-- C4 counterexample. All hierarchical writes do route to the primary
provider, but "only files under the primary directory are created" is still
false: a save with the caller-supplied namespace `..` (which nothing
validates, cf. C3) creates a file at `<primary>/../customs/e1.yaml`,
outside the primary directory. -/
theorem c4_write_escapes_primary_on_traversal_namespace :
    ((hierAfterSave regEx ["p"] ".yaml" false (fun _ => none) entE1 (some "..") 0)
        ["customs", "e1.yaml"]).isSome = true ∧
    pathUnder ["p"] ["customs", "e1.yaml"] = false ∧
    (fun _ => (none : Option FileContent)) ["customs", "e1.yaml"] = none :=
  ⟨rfl, rfl, rfl⟩

theorem validate_parts (reg : Registry) (e : Entity)
    (h : validateEntityFull reg e = true) :
    (regDirName reg e.type).isSome = true ∧ idPatternOk e.id = true := by
  simp only [validateEntityFull, Bool.and_eq_true] at h
  exact ⟨h.1.1, h.1.2⟩

theorem regDirName_mem (reg : Registry) (t dir : String)
    (h : regDirName reg t = some dir) : ∃ pr ∈ reg, pr.2 = dir := by
  unfold regDirName at h
  cases hf : reg.find? (fun p => p.1 == t) with
  | none => rw [hf] at h; exact absurd h (by simp)
  | some pr =>
      rw [hf] at h
      exact ⟨pr, List.mem_of_find?_eq_some hf, by simpa using h⟩

theorem fsAfterSave_off_path (reg : Registry) (basePath : FsPath) (ext : String)
    (ro : Bool) (fs : FileSys) (e : Entity) (ns : Option String) (t : Nat)
    (q : FsPath)
    (hq : validateEntityFull reg e = true → ∀ dir, regDirName reg e.type = some dir →
      q ≠ getEntityPathSegs basePath ns dir e.id ext) :
    fsAfterSave reg basePath ext ro fs e ns t q = fs q := by
  unfold fsAfterSave fsSave
  cases ro with
  | true => rfl
  | false =>
      cases hv : validateEntityFull reg e with
      | false => simp [hv]
      | true =>
          simp only [hv, Bool.not_true, Bool.false_eq_true, if_false]
          cases hd : regDirName reg e.type with
          | none => simp [hd]
          | some dir =>
              simp only [hd]
              simp [if_neg (hq hv dir hd)]

theorem fsAfterDelete_off_path (reg : Registry) (basePath : FsPath) (ext : String)
    (ro : Bool) (fs : FileSys) (ty i : String) (ns : Option String) (q : FsPath)
    (hq : ∀ dir, regDirName reg ty = some dir →
      q ≠ getEntityPathSegs basePath ns dir i ext) :
    fsAfterDelete reg basePath ext ro fs ty i ns q = fs q := by
  unfold fsAfterDelete fsDelete
  cases ro with
  | true => rfl
  | false =>
      cases hd : regDirName reg ty with
      | none => simp [hd]
      | some dir =>
          simp only [hd]
          cases hfs : fs (getEntityPathSegs basePath ns dir i ext) with
          | none => simp [hfs]
          | some c => simp [hfs, if_neg (hq dir hd)]

theorem fsAfterSaveBatch_off_path (reg : Registry) (basePath : FsPath)
    (ext : String) (ro : Bool) (fs : FileSys) (es : List Entity)
    (ns : Option String) (t : Nat) (q : FsPath)
    (hq : ∀ e2 ∈ es, validateEntityFull reg e2 = true →
      ∀ dir, regDirName reg e2.type = some dir →
        q ≠ getEntityPathSegs basePath ns dir e2.id ext) :
    fsAfterSaveBatch reg basePath ext ro fs es ns t q = fs q := by
  induction es generalizing fs with
  | nil => rfl
  | cons e2 rest ih =>
      show (match fsSave reg basePath ext ro fs e2 ns t with
        | .error _ => fs
        | .ok (_, fs2) => fsAfterSaveBatch reg basePath ext ro fs2 rest ns t) q = fs q
      cases hs : fsSave reg basePath ext ro fs e2 ns t with
      | error err => rfl
      | ok pr =>
          obtain ⟨se, fs2⟩ := pr
          have h1 : fs2 q = fs q := by
            have h2 := fsAfterSave_off_path reg basePath ext ro fs e2 ns t q
              (hq e2 (by simp))
            unfold fsAfterSave at h2
            rw [hs] at h2
            exact h2
          exact (ih fs2 (fun e3 he3 => hq e3 (by simp [he3]))).trans h1

theorem fsAfterDeleteBatch_off_path (reg : Registry) (basePath : FsPath)
    (ext : String) (ro : Bool) (fs : FileSys) (refs : List (String × String))
    (ns : Option String) (q : FsPath)
    (hq : ∀ r ∈ refs, ∀ dir, regDirName reg r.1 = some dir →
      q ≠ getEntityPathSegs basePath ns dir r.2 ext) :
    fsAfterDeleteBatch reg basePath ext ro fs refs ns q = fs q := by
  induction refs generalizing fs with
  | nil => rfl
  | cons r rest ih =>
      obtain ⟨ty, i⟩ := r
      show (match fsDelete reg basePath ext ro fs ty i ns with
        | .error _ => fs
        | .ok (_, fs2) => fsAfterDeleteBatch reg basePath ext ro fs2 rest ns) q = fs q
      cases hs : fsDelete reg basePath ext ro fs ty i ns with
      | error err => rfl
      | ok pr =>
          obtain ⟨b, fs2⟩ := pr
          have h1 : fs2 q = fs q := by
            have h2 := fsAfterDelete_off_path reg basePath ext ro fs ty i ns q
              (hq (ty, i) (by simp))
            unfold fsAfterDelete at h2
            rw [hs] at h2
            exact h2
          exact (ih fs2 (fun r2 hr2 => hq r2 (by simp [hr2]))).trans h1

/-- C4 amended (status: corrected). The hierarchical provider's
save/delete/saveBatch/deleteBatch are verbatim the primary provider's, so
for any file path that is not under the primary directory nothing changes —
*provided* the caller-supplied components are path-safe: the namespace
(when given) a plain segment, delete ids matching the id pattern (save ids
are forced through the pattern by validation), with the primary directory
normalized and the registry's directory names plain segments. Under the
same proviso any other configured directory that is not nested with the
primary sees no change at any of its paths. Without the proviso the claim
fails (see the counterexample). -/
theorem c4_writes_only_under_primary
    (reg : Registry) (primary : FsPath) (ext : String) (ro : Bool)
    (fs : FileSys) (e : Entity) (ns : Option String) (t : Nat)
    (ty i : String) (es : List Entity) (refs : List (String × String))
    (other : FsPath)
    (hBase : normalizeSegs primary = primary)
    (hExt : ext.toList.all (fun c => !(c == '/')) = true)
    (hReg : ∀ pr ∈ reg, goodSeg pr.2 = true)
    (hNs : ∀ s, ns = some s → goodSeg s = true)
    (hId : idPatternOk i = true)
    (hRefs : ∀ r ∈ refs, idPatternOk r.2 = true)
    (hO1 : pathUnder primary other = false)
    (hO2 : pathUnder other primary = false) :
    (∀ q, pathUnder primary q = false →
      hierAfterSave reg primary ext ro fs e ns t q = fs q ∧
      hierAfterDelete reg primary ext ro fs ty i ns q = fs q ∧
      hierAfterSaveBatch reg primary ext ro fs es ns t q = fs q ∧
      hierAfterDeleteBatch reg primary ext ro fs refs ns q = fs q) ∧
    (∀ rel, pathUnder primary (other ++ rel) = false) := by
  have hgen : ∀ (tyv idv : String) (q : FsPath), pathUnder primary q = false →
      idPatternOk idv = true → ∀ dir, regDirName reg tyv = some dir →
        q ≠ getEntityPathSegs primary ns dir idv ext := by
    intro tyv idv q hqf hidv dir hdir
    obtain ⟨pr, hpr, hpr2⟩ := regDirName_mem reg tyv dir hdir
    have hDirGood : goodSeg dir = true := hpr2 ▸ hReg pr hpr
    have hFileGood : goodSeg (idv ++ ext) = true := goodSeg_id_ext idv ext hidv hExt
    have hplain := getEntityPathSegs_plain primary ns dir idv ext hBase hNs hDirGood hFileGood
    intro hqeq
    have hput : pathUnder primary q = true := by
      rw [hqeq, hplain, List.append_assoc]
      exact pathUnder_append primary _
    rw [hput] at hqf
    exact absurd hqf (by decide)
  refine ⟨fun q hqf => ⟨?_, ?_, ?_, ?_⟩, pathUnder_extension_false primary other hO1 hO2⟩
  · exact fsAfterSave_off_path reg primary ext ro fs e ns t q
      (fun hv dir hdir => hgen e.type e.id q hqf (validate_parts reg e hv).2 dir hdir)
  · exact fsAfterDelete_off_path reg primary ext ro fs ty i ns q
      (fun dir hdir => hgen ty i q hqf hId dir hdir)
  · exact fsAfterSaveBatch_off_path reg primary ext ro fs es ns t q
      (fun e2 _ hv dir hdir => hgen e2.type e2.id q hqf (validate_parts reg e2 hv).2 dir hdir)
  · exact fsAfterDeleteBatch_off_path reg primary ext ro fs refs ns q
      (fun r hr dir hdir => hgen r.1 r.2 q hqf (hRefs r hr) dir hdir)

/-- Witness for the amended C4: a concrete two-directory layout (primary
`/p`, distant `/w`), a save, a delete, and both batch forms leave a path
under the distant directory untouched. -/
theorem c4_writes_only_under_primary_witness :
    pathUnder ["p"] ["w", "people", "f.yaml"] = false ∧
    hierAfterSave regEx ["p"] ".yaml" false (fun _ => none) entE1 none 0
      ["w", "people", "f.yaml"] = none ∧
    hierAfterDeleteBatch regEx ["p"] ".yaml" false (fun _ => none)
      [("custom", "e1")] none ["w", "people", "f.yaml"] = none := by
  have h := c4_writes_only_under_primary regEx ["p"] ".yaml" false
    (fun _ => none) entE1 none 0 "custom" "e1" [entE1] [("custom", "e1")] ["w"]
    (by decide) (by decide) (by decide) (by intro s hs; cases hs) (by decide)
    (by intro r hr; fin_cases hr; decide) (by decide) (by decide)
  have h2 := h.1 ["w", "people", "f.yaml"] (by decide)
  exact ⟨by decide, h2.1, h2.2.2.2⟩

/-! ## C5: tolerant reads -/

/-- C5 counterexample. The spec says a record containing a dangerous
`__proto__` key is skipped during a read. The code never inspects
`__proto__`: a record carrying one next to valid fields parses, validates
(schema strip mode simply discards the unknown key) and is *returned*, not
skipped. -/
theorem c5_proto_key_not_skipped :
    readEntityM "custom" "ctx/customs/x1.yaml"
      (some (.parsed (.record protoFields))) = .ok (some protoEntity) ∧
    lookupKey protoFields "__proto__" = some (.vstr "polluted") :=
  ⟨rfl, rfl⟩

theorem fsScan_skips_bad_file (type dirStr : String)
    (pre post : List (String × FileContent)) (nm : String) (c : FileContent)
    (h : readEntityM type (dirStr ++ "/" ++ nm) (some c) = .ok none) :
    fsScan type dirStr (pre ++ (nm, c) :: post) = fsScan type dirStr (pre ++ post) := by
  induction pre with
  | nil =>
      show fsScan type dirStr ((nm, c) :: post) = fsScan type dirStr post
      by_cases he : (strEndsWith nm ".yaml" || strEndsWith nm ".yml") = true
      · simp [fsScan, he, h]
      · simp [fsScan, he]
  | cons p rest ih =>
      obtain ⟨nm2, c2⟩ := p
      show fsScan type dirStr ((nm2, c2) :: (rest ++ (nm, c) :: post))
          = fsScan type dirStr ((nm2, c2) :: (rest ++ post))
      by_cases he : (strEndsWith nm2 ".yaml" || strEndsWith nm2 ".yml") = true
      · cases hr : readEntityM type (dirStr ++ "/" ++ nm2) (some c2) with
        | error err => simp [fsScan, he, hr]
        | ok o =>
            cases o with
            | none => simpa [fsScan, he, hr] using ih
            | some e => simp [fsScan, he, hr, ih]
      · simpa [fsScan, he] using ih

/-- C5 amended (status: corrected). During a read or scan: content that
fails to parse, parses to a non-record (falsy or non-object scalars, and
arrays — which pass the `typeof` check but fail schema validation), or
fails schema validation is skipped — the read returns "nothing" instead of
throwing, and removing such a file from a directory leaves the scan result
unchanged wherever it sits. What the spec adds about a `__proto__` key is
not in the code: no such check exists, and a valid record carrying that key
is kept (see the counterexample); the diagnostic log is outside this model.
-/
theorem c5_corrupt_content_skipped_not_thrown (type path dirStr : String)
    (v : JSValue) (xs : List JSValue) (fields : List (String × JSValue))
    (hval : validateRecordAs type (setKey fields "source" (.vstr path)) = none)
    (pre post : List (String × FileContent)) (nm : String) (c : FileContent)
    (hskip : readEntityM type (dirStr ++ "/" ++ nm) (some c) = .ok none) :
    readEntityM type path (some .badYaml) = .ok none ∧
    readEntityM type path (some (.parsed (.scalar v))) = .ok none ∧
    readEntityM type path (some (.parsed (.array xs))) = .ok none ∧
    readEntityM type path (some (.parsed (.record fields))) = .ok none ∧
    fsScan type dirStr (pre ++ (nm, c) :: post) = fsScan type dirStr (pre ++ post) := by
  refine ⟨rfl, rfl, rfl, ?_, fsScan_skips_bad_file type dirStr pre post nm c hskip⟩
  show Except.ok (validateRecordAs type (setKey fields "source" (.vstr path))) = .ok none
  rw [hval]

/-- Witness for the amended C5: a record whose id fails the schema pattern
is skipped, and dropping that file from a two-file directory leaves exactly
the valid file's entity. -/
theorem c5_corrupt_content_skipped_not_thrown_witness :
    validateRecordAs "custom"
      (setKey [("id", JSValue.vstr "no/good"), ("name", JSValue.vstr "Bad")]
        "source" (.vstr "d/bad.yaml")) = none ∧
    readEntityM "custom" ("d" ++ "/" ++ "bad.yaml")
      (some (.parsed (.record [("id", JSValue.vstr "no/good"),
        ("name", JSValue.vstr "Bad")]))) = .ok none ∧
    fsScan "custom" "d"
      [("bad.yaml", .parsed (.record [("id", JSValue.vstr "no/good"),
          ("name", JSValue.vstr "Bad")])),
       ("x1.yaml", .parsed (.record protoFields))]
      = fsScan "custom" "d" [("x1.yaml", .parsed (.record protoFields))] := by
  have h := c5_corrupt_content_skipped_not_thrown "custom" "d/bad.yaml" "d"
    .vnull [] [("id", JSValue.vstr "no/good"), ("name", JSValue.vstr "Bad")]
    (by decide) []
    [("x1.yaml", .parsed (.record protoFields))] "bad.yaml"
    (.parsed (.record [("id", JSValue.vstr "no/good"), ("name", JSValue.vstr "Bad")]))
    (by rfl)
  exact ⟨by decide, h.2.2.2.1, h.2.2.2.2⟩

/-! ## C6: search pagination, total, hasMore -/

/-- C6 counterexample. The spec's "paginate via offset then limit, hasMore
= offset + limit < total when a limit was given (false otherwise)" fails
when the given limit is `0`: JS truthiness treats `limit: 0` as *no* limit,
so over one entity with `limit: 0, offset: 0` the code returns the full
item list and `hasMore: false`, although the claimed slice would be empty
and the claimed formula `0 + 0 < 1` is true. -/
theorem c6_zero_limit_treated_as_no_limit :
    searchModel { limit := some 0 } [entAlice]
      = .ok { items := [entAlice], total := 1, hasMore := false } ∧
    ((0 : Nat) + 0 < 1) :=
  ⟨rfl, by decide⟩

/-- C6 amended (status: corrected). For every query whose candidate set is
within the hard cap, `search` succeeds; `total` is the filtered-and-sorted
count before any pagination (and is invariant under the limit/offset
options); with a *positive* limit the items are
`slice(offset, offset + limit)` of the filtered-sorted set and
`hasMore = offset + limit < total`; with no limit — or a limit of 0, which
truthiness treats as absent — the items are everything from `offset` on and
`hasMore` is `false`. -/
theorem c6_search_paginates_after_filter_sort (opts : QueryOptions)
    (collected : List Entity)
    (hcap : collected.length ≤ MAX_SEARCH_ENTITIES) :
    ∃ r, searchModel opts collected = .ok r ∧
      r.total = (searchFiltered opts collected).length ∧
      (∀ l o, searchFiltered { opts with limit := l, offset := o } collected
        = searchFiltered opts collected) ∧
      (∀ n, opts.limit = some n → 0 < n →
        r.items = ((searchFiltered opts collected).drop opts.offset).take n ∧
        r.hasMore = decide (opts.offset + n < r.total)) ∧
      ((opts.limit = none ∨ opts.limit = some 0) →
        r.items = (searchFiltered opts collected).drop opts.offset ∧
        r.hasMore = false) := by
  have hno : ¬ collected.length > MAX_SEARCH_ENTITIES := by omega
  refine ⟨_, by rw [searchModel, if_neg hno], rfl, fun l o => rfl, ?_, ?_⟩
  · intro n hn hpos
    constructor
    · show searchPaginate opts.limit opts.offset (searchFiltered opts collected) = _
      rw [hn]
      simp [searchPaginate, Nat.pos_iff_ne_zero.mp hpos]
    · show (match opts.limit with
        | some n2 => if n2 = 0 then false
            else decide (opts.offset + n2 < (searchFiltered opts collected).length)
        | none => false) = _
      rw [hn]
      simp [Nat.pos_iff_ne_zero.mp hpos]
  · rintro (hn | hn)
    · constructor
      · show searchPaginate opts.limit opts.offset (searchFiltered opts collected) = _
        rw [hn]
        rfl
      · show (match opts.limit with
          | some n2 => if n2 = 0 then false
              else decide (opts.offset + n2 < (searchFiltered opts collected).length)
          | none => false) = _
        rw [hn]
    · constructor
      · show searchPaginate opts.limit opts.offset (searchFiltered opts collected) = _
        rw [hn]
        simp [searchPaginate]
      · show (match opts.limit with
          | some n2 => if n2 = 0 then false
              else decide (opts.offset + n2 < (searchFiltered opts collected).length)
          | none => false) = _
        rw [hn]
        simp

/-- Witness for the amended C6: the spec's example — `limit: 2, offset: 1`
over a 3-item set returns exactly the 2nd and 3rd items in sort order with
`total: 3` and `hasMore: false`. -/
theorem c6_search_paginates_after_filter_sort_witness :
    ents3.length ≤ MAX_SEARCH_ENTITIES ∧
    searchFiltered q3 ents3 = [entAlice, entBob3, entCarol] ∧
    searchModel q3 ents3
      = .ok { items := [entBob3, entCarol], total := 3, hasMore := false } ∧
    (∃ r, searchModel q3 ents3 = .ok r ∧
      r.total = (searchFiltered q3 ents3).length) := by
  refine ⟨by decide, by decide, by rfl, ?_⟩
  obtain ⟨r, h1, h2, _⟩ := c6_search_paginates_after_filter_sort q3 ents3 (by decide)
  exact ⟨r, h1, h2⟩

/-! ## C7: round trip and timestamp metadata -/

/-- C7 counterexample. The claim ranges over every provider, but the
filesystem's `writeEntity` takes `createdAt` from the *passed* entity
(`createdAt: entityToSave.createdAt || now`, `filesystem.ts` 137), not from
the stored copy. Saving `m1` at instant 1 gives it `createdAt = 1`; a
subsequent save of a fresh entity with the same (type, id) and no
`createdAt` — sequenced on the very disk the first save produced — comes
back with `createdAt = 2`: the update did not preserve `createdAt`. -/
theorem c7_fs_update_resets_createdAt :
    (fsSave regEx caBase ".yaml" false (fun _ => none) entM1 none 1).map
      (fun pr => (pr.1.createdAt, pr.1.updatedAt)) = .ok (some 1, some 1) ∧
    ((fsSave regEx caBase ".yaml" false (fun _ => none) entM1 none 1).bind
        (fun pr => fsSave regEx caBase ".yaml" false pr.2 entM1v2 none 2)).map
      (fun pr => (pr.1.createdAt, pr.1.updatedAt)) = .ok (some 2, some 2) ∧
    entM1v2.id = entM1.id ∧ entM1v2.type = entM1.type ∧
    ((some 2 : Option Nat) ≠ some 1) :=
  ⟨rfl, rfl, rfl, rfl, by decide⟩

theorem memSave_ok (reg : Registry) (dflt : Option String) (st : MemStore)
    (e : Entity) (ns : Option String) (t : Nat)
    (hv : validateEntityFull reg e = true) :
    memSave reg false dflt st e ns t =
      .ok (fun n2 ty i =>
            if n2 = memResolveNs dflt ns ∧ ty = e.type ∧ i = e.id
            then some { e with nspace := some (memResolveNs dflt ns),
                               createdAt := some
                                 (match st (memResolveNs dflt ns) e.type e.id with
                                  | some ex => ex.createdAt.getD t
                                  | none => t),
                               updatedAt := some t }
            else st n2 ty i,
           { e with nspace := some (memResolveNs dflt ns),
                    createdAt := some
                      (match st (memResolveNs dflt ns) e.type e.id with
                       | some ex => ex.createdAt.getD t
                       | none => t),
                    updatedAt := some t }) := by
  simp [memSave, hv]

/-- C7 amended (status: corrected). The claim's behavior is
provider-specific. Memory provider: saving a valid entity and reading it
back by (type, id, namespace) yields the same caller-supplied fields
(id, name, type, notes, createdBy and all open extension fields), and a
subsequent update of the same (type, id) at a strictly later instant keeps
`createdAt` unchanged — taken from the *stored* copy, whatever the caller
passes — while `updatedAt` moves from the first instant to the strictly
later one. Filesystem provider: `writeEntity` takes `createdAt` from the
*passed* entity (`entityToSave.createdAt || now`) and always refreshes
`updatedAt`, so `createdAt` survives an update only when the caller passes
the previously read entity (as the API's `update` path does, spreading the
existing entity); a save of a fresh entity with the same (type, id) and no
`createdAt` resets it to the save instant (see the counterexample). -/
theorem c7_roundtrip_createdAt_stable_updatedAt_increases
    (reg : Registry) (dflt : Option String) (st0 : MemStore)
    (e e2 : Entity) (ns : Option String) (t1 t2 : Nat)
    (basePath : FsPath) (ext : String) (fs : FileSys) (c : Nat)
    (hv : validateEntityFull reg e = true)
    (hv2 : validateEntityFull reg e2 = true)
    (hid : e2.id = e.id) (hty : e2.type = e.type)
    (ht : t1 < t2) :
    (∃ st1 s1 st2 s2,
      memSave reg false dflt st0 e ns t1 = .ok (st1, s1) ∧
      memGet dflt st1 e.type e.id ns = some s1 ∧
      s1.id = e.id ∧ s1.name = e.name ∧ s1.type = e.type ∧
      s1.notes = e.notes ∧ s1.createdBy = e.createdBy ∧ s1.extra = e.extra ∧
      memSave reg false dflt st1 e2 ns t2 = .ok (st2, s2) ∧
      s2.createdAt = s1.createdAt ∧
      s1.updatedAt = some t1 ∧ s2.updatedAt = some t2 ∧ t1 < t2) ∧
    (e.createdAt = some c →
      (fsSave reg basePath ext false fs e ns t2).map
        (fun pr => (pr.1.createdAt, pr.1.updatedAt)) = .ok (some c, some t2)) ∧
    (e.createdAt = none →
      (fsSave reg basePath ext false fs e ns t2).map
        (fun pr => (pr.1.createdAt, pr.1.updatedAt)) = .ok (some t2, some t2)) := by
  obtain ⟨dir, hdir⟩ : ∃ dir, regDirName reg e.type = some dir := by
    have hreg := (validate_parts reg e hv).1
    cases hrd : regDirName reg e.type with
    | none => rw [hrd] at hreg; exact absurd hreg (by decide)
    | some d => exact ⟨d, rfl⟩
  refine ⟨?_, ?_, ?_⟩
  · refine ⟨_, _, _, _, memSave_ok reg dflt st0 e ns t1 hv, ?_, rfl, rfl, rfl, rfl,
      rfl, rfl, memSave_ok reg dflt _ e2 ns t2 hv2, ?_, rfl, rfl, ht⟩
    · simp [memGet]
    · simp [hid, hty]
  · intro hc
    simp [fsSave, hv, hdir, hc, Except.map]
  · intro hc
    simp [fsSave, hv, hdir, hc, Except.map]

/-- Witness for the amended C7: a concrete save at instant 1 and an update
at instant 2 through the memory provider, plus the filesystem policy at a
concrete entity carrying `createdAt = 5` (preserved, `updatedAt`
refreshed). -/
theorem c7_roundtrip_createdAt_stable_updatedAt_increases_witness :
    validateEntityFull regEx { entM1 with createdAt := some 5 } = true ∧
    validateEntityFull regEx entM1v2 = true ∧
    ({ entM1 with createdAt := some 5 } : Entity).createdAt = some 5 ∧
    (∃ st1 s1 st2 s2,
      memSave regEx false none (fun _ _ _ => none)
        { entM1 with createdAt := some 5 } none 1 = .ok (st1, s1) ∧
      memGet none st1 entM1.type entM1.id none = some s1 ∧
      s1.id = entM1.id ∧ s1.name = entM1.name ∧ s1.type = entM1.type ∧
      s1.notes = entM1.notes ∧ s1.createdBy = entM1.createdBy ∧
      s1.extra = entM1.extra ∧
      memSave regEx false none st1 entM1v2 none 2 = .ok (st2, s2) ∧
      s2.createdAt = s1.createdAt ∧
      s1.updatedAt = some 1 ∧ s2.updatedAt = some 2 ∧ 1 < 2) ∧
    (fsSave regEx caBase ".yaml" false (fun _ => none)
        { entM1 with createdAt := some 5 } none 2).map
      (fun pr => (pr.1.createdAt, pr.1.updatedAt)) = .ok (some 5, some 2) := by
  have h := c7_roundtrip_createdAt_stable_updatedAt_increases regEx none
    (fun _ _ _ => none) { entM1 with createdAt := some 5 } entM1v2 none 1 2
    caBase ".yaml" (fun _ => none) 5 (by decide) (by decide) rfl rfl (by decide)
  exact ⟨by decide, by decide, rfl, h.1, h.2.1 rfl⟩

/-! ## C8: sort tie-break semantics -/

/-- C8 (status: confirmed). The comparator walks the tie-break keys in
order: values that are `===`-equal at the current key fall through to the
remaining keys; otherwise the current key alone decides — a nullish value
on the left sorts last ascending and first descending, two strings compare
via `localeCompare` (modelled by code-point order), two dates by instant —
and the spec's example `[{company asc}, {name asc}]` over
`{Bob, Acme}, {John, Acme}, {Jane, TechCorp}` sorts to Bob, John, Jane. -/
theorem c8_sort_tiebreak_semantics :
    (∀ (f : String) (d : SortDirection) (rest : List SortOption) (a b : Entity),
      jsStrictEq (getField a f) (getField b f) = true →
        compareByKeys (⟨f, d⟩ :: rest) a b = compareByKeys rest a b) ∧
    (∀ (f : String) (rest : List SortOption) (a b : Entity),
      jsStrictEq (getField a f) (getField b f) = false →
      isNullish (getField a f) = true →
        compareByKeys (⟨f, .asc⟩ :: rest) a b = 1 ∧
        compareByKeys (⟨f, .desc⟩ :: rest) a b = -1) ∧
    (∀ (f : String) (rest : List SortOption) (a b : Entity) (s t : String),
      getField a f = .vstr s → getField b f = .vstr t → ¬ s = t →
        compareByKeys (⟨f, .asc⟩ :: rest) a b = strCmpInt s t) ∧
    (∀ (f : String) (rest : List SortOption) (a b : Entity) (ta tb : Int),
      getField a f = .vdate ta → getField b f = .vdate tb →
        compareByKeys (⟨f, .asc⟩ :: rest) a b = ta - tb) ∧
    sortEntities sortKeysEx [entSortJane, entSortJohn, entSortBob]
      = [entSortBob, entSortJohn, entSortJane] := by
  refine ⟨?_, ?_, ?_, ?_, by decide⟩
  · intro f d rest a b h
    simp [compareByKeys, h]
  · intro f rest a b h hnull
    constructor
    · simp [compareByKeys, h, hnull]
    · simp [compareByKeys, h, hnull]
  · intro f rest a b s t ha hb hst
    simp [compareByKeys, ha, hb, jsStrictEq, isNullish, hst]
  · intro f rest a b ta tb ha hb
    simp [compareByKeys, ha, hb, jsStrictEq, isNullish]

/-- Witness for C8: at the example entities, the `Acme`/`Acme` tie at
`company` falls through to `name`, where `Bob` beats `John`. -/
theorem c8_sort_tiebreak_semantics_witness :
    jsStrictEq (getField entSortJohn "company") (getField entSortBob "company")
      = true ∧
    compareByKeys [⟨"company", .asc⟩, ⟨"name", .asc⟩] entSortJohn entSortBob
      = compareByKeys [⟨"name", .asc⟩] entSortJohn entSortBob ∧
    compareByKeys [⟨"name", .asc⟩] entSortJohn entSortBob = 1 := by
  refine ⟨by decide, ?_, by decide⟩
  exact (c8_sort_tiebreak_semantics).1 "company" .asc [⟨"name", .asc⟩]
    entSortJohn entSortBob (by decide)

/-! ## C9: namespace resolver invariants -/

/-- C9 counterexample. For the requested specifier `[]` — an ordered list,
and truthy in JS, so it is *not* replaced by the default — the resolution
carries no references at all: no namespace is marked writable (the claimed
"exactly one writable" count is 0), while `primary` falls back to the
default and `readable` to `[default]`. -/
theorem c9_empty_list_yields_no_writable_reference :
    (resolveModel "_default" [] (.many [])).references = [] ∧
    ((resolveModel "_default" [] (.many [])).references.countP (·.writable)) = 0 ∧
    (resolveModel "_default" [] (.many [])).primary = "_default" ∧
    (resolveModel "_default" [] (.many [])).readable = ["_default"] :=
  ⟨rfl, rfl, rfl, rfl⟩

theorem resolveModel_references (dflt : String) (cfgs : List NamespaceConfig)
    (req : Requested) :
    (resolveModel dflt cfgs req).references
      = buildRefs cfgs (requestedIds dflt req).length 0 (requestedIds dflt req) := by
  unfold resolveModel
  cases h : (requestedIds dflt req).find? (fun s => !(s == "")) <;> simp [h]

theorem resolveModel_primary (dflt : String) (cfgs : List NamespaceConfig)
    (req : Requested) :
    (resolveModel dflt cfgs req).primary
      = ((requestedIds dflt req).find? (fun s => !(s == ""))).getD dflt := by
  unfold resolveModel
  cases h : (requestedIds dflt req).find? (fun s => !(s == "")) <;> simp [h]

theorem buildRefs_getElem (cfgs : List NamespaceConfig) (total : Nat)
    (l : List String) : ∀ (i j : Nat),
    (buildRefs cfgs total i l)[j]? =
      (l[j]?).map (fun nsId =>
        ({ nspace := nsId, priority := total - (i + j),
           searchable := nsSearchable cfgs nsId,
           writable := (i + j) == 0 } : NamespaceReference)) := by
  induction l with
  | nil => intro i j; simp [buildRefs]
  | cons x rest ih =>
      intro i j
      cases j with
      | zero => simp [buildRefs]
      | succ j2 =>
          have harith : i + 1 + j2 = i + (j2 + 1) := by omega
          simp only [buildRefs, List.getElem?_cons_succ, ih (i + 1) j2, harith]

theorem buildRefs_countP_ge_one (cfgs : List NamespaceConfig) (total : Nat)
    (l : List String) : ∀ i, 1 ≤ i →
    (buildRefs cfgs total i l).countP (·.writable) = 0 := by
  induction l with
  | nil => intro i _; rfl
  | cons x rest ih =>
      intro i hi
      have hw : ((i == 0) : Bool) = false := by
        rw [beq_eq_false_iff_ne]
        omega
      simp only [buildRefs, List.countP_cons]
      rw [ih (i + 1) (by omega)]
      simp [hw]

/-- C9 amended (status: corrected). For every requested specifier the
resolution's readable list is non-empty (falling back to the configured
default when nothing — or the empty string — is requested, and when the
requested list is empty or all-empty-strings); the references mirror the
requested ids index for index with `priority = length - index` (earlier
entries strictly higher) and `writable` exactly at index 0 — hence exactly
one writable reference *when the requested list is non-empty*, and none for
the empty list (see the counterexample); `primary` is the first non-empty
requested namespace, or the default when there is none, which can differ
from the (first) writable reference when the first entry is `""`. -/
theorem c9_resolver_invariants (dflt : String) (cfgs : List NamespaceConfig)
    (req : Requested) :
    (resolveModel dflt cfgs req).readable ≠ [] ∧
    (resolveModel dflt cfgs req).references.length
      = (requestedIds dflt req).length ∧
    (∀ (j : Nat), ((resolveModel dflt cfgs req).references)[j]? =
      ((requestedIds dflt req)[j]?).map (fun nsId =>
        ({ nspace := nsId, priority := (requestedIds dflt req).length - j,
           searchable := nsSearchable cfgs nsId,
           writable := j == 0 } : NamespaceReference))) ∧
    (requestedIds dflt req ≠ [] →
      (resolveModel dflt cfgs req).references.countP (·.writable) = 1) ∧
    (∀ j1 j2, j1 < j2 → j2 < (requestedIds dflt req).length →
      (requestedIds dflt req).length - j2 < (requestedIds dflt req).length - j1) ∧
    (resolveModel dflt cfgs req).primary
      = ((requestedIds dflt req).find? (fun s => !(s == ""))).getD dflt := by
  refine ⟨?_, ?_, ?_, ?_, ?_, resolveModel_primary dflt cfgs req⟩
  · unfold resolveModel
    cases h : (requestedIds dflt req).find? (fun s => !(s == "")) with
    | none => simp [h]
    | some p =>
        simp only [h]
        exact List.ne_nil_of_mem (List.mem_of_find?_eq_some h)
  · rw [resolveModel_references]
    induction requestedIds dflt req with
    | nil => rfl
    | cons x rest ih =>
        show (buildRefs cfgs _ 0 (x :: rest)).length = (x :: rest).length
        have hlen : ∀ (l2 : List String) (tot i : Nat),
            (buildRefs cfgs tot i l2).length = l2.length := by
          intro l2
          induction l2 with
          | nil => intro tot i; rfl
          | cons y ys ih2 =>
              intro tot i
              simp [buildRefs, ih2 tot (i + 1)]
        exact hlen (x :: rest) _ 0
  · intro j
    rw [resolveModel_references, buildRefs_getElem cfgs _ _ 0 j]
    simp
  · intro hne
    rw [resolveModel_references]
    cases h : requestedIds dflt req with
    | nil => exact absurd h hne
    | cons x rest =>
        simp only [buildRefs, List.countP_cons]
        rw [buildRefs_countP_ge_one cfgs _ rest 1 (by omega)]
        simp
  · intro j1 j2 h12 h2
    omega

/-- Witness for the amended C9 at the two-element request
`['work', 'personal']`: two references, priorities 2 then 1, only the first
writable, primary `work`. -/
theorem c9_resolver_invariants_witness :
    requestedIds "_default" (.many ["work", "personal"]) ≠ [] ∧
    (resolveModel "_default" [] (.many ["work", "personal"])).references.countP
      (·.writable) = 1 ∧
    (resolveModel "_default" [] (.many ["work", "personal"])).primary = "work" ∧
    (resolveModel "_default" [] (.many ["work", "personal"])).references
      = [{ nspace := "work", priority := 2, searchable := true, writable := true },
         { nspace := "personal", priority := 1, searchable := true, writable := false }] := by
  refine ⟨by decide, ?_, by decide, by decide⟩
  exact (c9_resolver_invariants "_default" [] (.many ["work", "personal"])).2.2.2.1
    (by decide)

end Overcontext
